import Mathlib

/-!
Verification of the DonorSearch extraction-and-aggregation engine.

The Python source (`src/DonorSearch/donor_lookup.py`) is shallowly embedded
here.  Text is modelled as `List Char` (ASCII scope), Python `str.strip` /
`str.upper` / `str.split` and the three regular expressions used by
`parse_donation_table` are translated into executable Lean functions, and the
stateful dict-building loop of `group_donors_and_analyze_party` is translated
into an explicit fold over an insertion-ordered association list (the same
semantics as a Python `dict`).  Python floats are modelled by `ℚ`.

The Name/Address Splitter (spec §4.1) and the Fuzzy Variant Grouper
(spec §4.3) are not present under `src/`; they are modelled from the
specification text, as marked on their doc comments.
-/

abbrev Str := List Char

/-- Whitespace test matching Python `str.strip` / regex `\s` on ASCII text,
stated on code points (space 32, tab 9, newline 10, vertical tab 11,
form feed 12, carriage return 13). -/
def pyIsSpace (c : Char) : Bool :=
  decide (c.toNat = 32 ∨ c.toNat = 9 ∨ c.toNat = 10 ∨ c.toNat = 11 ∨
    c.toNat = 12 ∨ c.toNat = 13)

/-- ASCII case map of Python `str.upper`: the lowercase letters (code points
97-122) move down 32 code points, everything else is unchanged. -/
def pyToUpper (c : Char) : Char :=
  if 97 ≤ c.toNat ∧ c.toNat ≤ 122 then Char.ofNat (c.toNat - 32) else c

/-- Python `str.upper` on ASCII text. -/
def pyUpper (s : Str) : Str := s.map pyToUpper

/-- Python `str.strip`: drop leading and trailing whitespace. -/
def pyStrip (s : Str) : Str :=
  ((s.dropWhile pyIsSpace).reverse.dropWhile pyIsSpace).reverse

/-- Python `s.split('\n')[0]`: the text before the first newline
(the whole string when there is none). -/
def takeBeforeNL (s : Str) : Str := s.takeWhile (fun c => decide (c ≠ '\n'))

/-- ASCII digit test matching regex `\d` on ASCII text, stated on code
points (48-57 are the digits). -/
def pyIsDigit (c : Char) : Bool := decide (48 ≤ c.toNat ∧ c.toNat ≤ 57)

/-- Test for regex class `[A-Z]`, stated on code points (65-90). -/
def isUpperAZ (c : Char) : Bool := decide (65 ≤ c.toNat ∧ c.toNat ≤ 90)

/-- Leftmost-match driver shared by the three `re.search` calls of
`parse_donation_table`: try the head matcher at every suffix, left to right,
and return the first hit. -/
def scanFirst {α : Type} (m : Str → Option α) : Str → Option α
  | [] => m []
  | c :: rest =>
    match m (c :: rest) with
    | some a => some a
    | none => scanFirst m rest

/-- Test for regex class `[\d,]`. -/
def digitOrComma (c : Char) : Bool := pyIsDigit c || decide (c = ',')

/-- Head matcher for regex `\$([\d,]+)` (from `parse_donation_table`):
a dollar sign followed by a maximal nonempty run of digits and commas;
returns the captured group. -/
def amountGroupMatch (s : Str) : Option Str :=
  match s with
  | c :: rest =>
    if c = '$' then
      if (rest.takeWhile digitOrComma).isEmpty then none
      else some (rest.takeWhile digitOrComma)
    else none
  | [] => none

/-- Python `int` applied to a (comma-stripped) digit string; `int('')` raises,
modelled as `none`. -/
def pyIntDigits (ds : Str) : Option Int :=
  if ds.isEmpty then none
  else some (ds.foldl (fun a c => a * 10 + ((c.toNat : Int) - 48)) 0)

/-- The `amount_numeric` computation of `parse_donation_table` (lines 72-77):
search for `\$([\d,]+)`; on a match, strip commas from the group and convert
with `int` (which can raise, modelled as `none`); otherwise `0`. -/
def amountNumeric (s : Str) : Option Int :=
  match scanFirst amountGroupMatch s with
  | none => some 0
  | some g => pyIntDigits (g.filter (fun c => decide (c ≠ ',')))

/-- Head matcher for regex `([A-Z]{2})\s+\d{5}` (from `parse_donation_table`):
two uppercase letters, then at least one whitespace character, then five
digits; returns the two-letter group. -/
def stateGroupMatch (s : Str) : Option Str :=
  match s with
  | a :: b :: rest =>
    if isUpperAZ a && isUpperAZ b then
      let ws := rest.takeWhile pyIsSpace
      let tl := rest.drop ws.length
      if ws.isEmpty then none
      else if (tl.take 5).length = 5 && (tl.take 5).all pyIsDigit then some [a, b]
      else none
    else none
  | _ => none

/-- The `contributor_state` computation of `parse_donation_table`
(lines 80-82): group of the leftmost `([A-Z]{2})\s+\d{5}` match,
or `''` when there is none. -/
def contributorState (s : Str) : Str := (scanFirst stateGroupMatch s).getD []

/-- Head matcher for regex `\(([DR])\)` (from `parse_donation_table`):
a `D` or `R` enclosed in parentheses; returns the one-letter group. -/
def partyGroupMatch (s : Str) : Option Str :=
  match s with
  | a :: c :: b :: _ =>
    if a = '(' ∧ b = ')' ∧ (c = 'D' ∨ c = 'R') then some [c] else none
  | _ => none

/-- The `recipient_party` computation of `parse_donation_table`
(lines 85-87): group of the leftmost `\(([DR])\)` match, or `''` when there
is none. -/
def recipientParty (s : Str) : Str := (scanFirst partyGroupMatch s).getD []

/-- One parsed donation row, the dict built by `parse_donation_table`. -/
structure Donation where
  category : Str
  contributor : Str
  employer : Str
  occupation : Str
  date : Str
  amount : Str
  recipient : Str
  jurisdiction : Str
  amount_numeric : Int
  contributor_state : Str
  recipient_party : Str
deriving DecidableEq, Repr

/-- The body of `parse_donation_table`'s row loop (lines 58-92): rows with
fewer than 8 cells are dropped, and a row whose `amount_numeric` derivation
raises is dropped by the enclosing `try`/`except`. -/
def parseRow (cells : List Str) : Option Donation :=
  if 8 ≤ cells.length then
    match amountNumeric (cells.getD 5 []) with
    | none => none
    | some n =>
      some { category := cells.getD 0 [], contributor := cells.getD 1 [],
             employer := cells.getD 2 [], occupation := cells.getD 3 [],
             date := cells.getD 4 [], amount := cells.getD 5 [],
             recipient := cells.getD 6 [], jurisdiction := cells.getD 7 [],
             amount_numeric := n,
             contributor_state := contributorState (cells.getD 1 []),
             recipient_party := recipientParty (cells.getD 6 []) }
  else none

/-- Embeds `parse_donation_table` (lines 53-94) applied to the already-split
table rows: skip the header row (`rows[1:]`), then keep successfully parsed
rows in order. -/
def parse_donation_table (rows : List (List Str)) : List Donation :=
  (rows.drop 1).filterMap parseRow

/-- Outcome of the external HTTP fetch inside `query_opensecrets_donor`:
either a status code with the parsed table rows, or a raised
`RequestException` carrying its message. -/
inductive FetchOutcome
  | ok (status : Nat) (rows : List (List Str))
  | err (e : Str)

/-- The per-query result dict of `query_opensecrets_donor` (lines 122-143). -/
structure QueryResult where
  name : Str
  status_code : Option Nat
  donations : List Donation
  total_donations : Nat
  total_amount : Int
  success : Bool
  error : Option Str
deriving DecidableEq

/-- Embeds `query_opensecrets_donor` (lines 96-143) as a function of the
fetch outcome: on success the table is parsed and totals are computed; on a
`RequestException` the failure dict with empty donations is returned. -/
def query_opensecrets_donor (name : Str) (fetch : FetchOutcome) : QueryResult :=
  match fetch with
  | .ok status rows =>
    let ds := parse_donation_table rows
    { name := name, status_code := some status, donations := ds,
      total_donations := ds.length,
      total_amount := (ds.map Donation.amount_numeric).sum,
      success := true, error := none }
  | .err e =>
    { name := name, status_code := none, donations := [],
      total_donations := 0, total_amount := 0,
      success := false, error := some e }

/-- Embeds `extract_donor_key` (lines 232-253). -/
def extract_donor_key (d : Donation) : Str :=
  pyUpper (pyStrip (takeBeforeNL (pyStrip d.contributor)) ++ ['|']
    ++ pyStrip d.contributor_state ++ ['|']
    ++ pyStrip d.employer ++ ['|']
    ++ pyStrip d.occupation)

/-- The `donor_info` dict of a donor group (lines 275-281). -/
structure DonorInfo where
  name : Str
  state : Str
  employer : Str
  occupation : Str
  searched_name : Str
deriving DecidableEq

/-- The `party_analysis` dict of a donor group before percentages are added
(lines 283-292). -/
structure PartyAnalysis where
  democratic_count : Nat
  republican_count : Nat
  other_count : Nat
  democratic_amount : Int
  republican_amount : Int
  other_amount : Int
  total_donations : Nat
  total_amount : Int
deriving DecidableEq

/-- A donor group as built by the folding loop of
`group_donors_and_analyze_party` (lines 273-314). -/
structure DonorGroup where
  donor_info : DonorInfo
  donations : List Donation
  party_analysis : PartyAnalysis
deriving DecidableEq

/-- The all-zero tally a fresh group starts from (lines 283-292). -/
def zeroAnalysis : PartyAnalysis :=
  { democratic_count := 0, republican_count := 0, other_count := 0,
    democratic_amount := 0, republican_amount := 0, other_amount := 0,
    total_donations := 0, total_amount := 0 }

/-- The group created on first sight of a key (lines 273-293). -/
def newGroup (searched : Str) (d : Donation) : DonorGroup :=
  { donor_info :=
      { name := pyStrip (takeBeforeNL d.contributor),
        state := d.contributor_state,
        employer := d.employer,
        occupation := d.occupation,
        searched_name := searched },
    donations := [],
    party_analysis := zeroAnalysis }

/-- The per-donation tally update (lines 298-314).  The source first adds to
`total_donations`/`total_amount` and then to the matched party's bucket; the
two updates are written here as one composite record update. -/
def bumpAnalysis (d : Donation) (a : PartyAnalysis) : PartyAnalysis :=
  if d.recipient_party = ['D'] then
    { a with total_donations := a.total_donations + 1,
             total_amount := a.total_amount + d.amount_numeric,
             democratic_count := a.democratic_count + 1,
             democratic_amount := a.democratic_amount + d.amount_numeric }
  else if d.recipient_party = ['R'] then
    { a with total_donations := a.total_donations + 1,
             total_amount := a.total_amount + d.amount_numeric,
             republican_count := a.republican_count + 1,
             republican_amount := a.republican_amount + d.amount_numeric }
  else
    { a with total_donations := a.total_donations + 1,
             total_amount := a.total_amount + d.amount_numeric,
             other_count := a.other_count + 1,
             other_amount := a.other_amount + d.amount_numeric }

/-- Appending one donation to a group (lines 296-314). -/
def addDonation (d : Donation) (g : DonorGroup) : DonorGroup :=
  { g with donations := g.donations ++ [d],
           party_analysis := bumpAnalysis d g.party_analysis }

/-- Lookup in an insertion-ordered association list (a Python `dict`). -/
def aLookup {α : Type} (k : Str) : List (Str × α) → Option α
  | [] => none
  | (k2, v) :: rest => if k2 = k then some v else aLookup k rest

/-- Replace the value stored at a present key, keeping insertion order. -/
def aUpdate {α : Type} (k : Str) (f : α → α) : List (Str × α) → List (Str × α)
  | [] => []
  | (k2, v) :: rest =>
    if k2 = k then (k2, f v) :: rest else (k2, v) :: aUpdate k f rest

/-- One iteration of the folding loop of `group_donors_and_analyze_party`
(lines 270-314): create the group if the key is new (a Python `dict` inserts
new keys at the end), then append the donation and update the tally. -/
def foldDonation (gs : List (Str × DonorGroup)) (searched : Str) (d : Donation) :
    List (Str × DonorGroup) :=
  let k := extract_donor_key d
  let gs2 := if (aLookup k gs).isSome then gs else gs ++ [(k, newGroup searched d)]
  aUpdate k (addDonation d) gs2

/-- The record stream seen by the folding loop (lines 268-270): donations of
successful nonempty results, in result order, each tagged with the queried
name. -/
def collectDonations (results : List QueryResult) : List (Str × Donation) :=
  results.flatMap (fun r =>
    if r.success && !r.donations.isEmpty then
      r.donations.map (fun d => (r.name, d))
    else [])

/-- The whole folding phase (lines 265-314) over a tagged record stream. -/
def foldAllDonations (l : List (Str × Donation)) : List (Str × DonorGroup) :=
  l.foldl (fun gs p => foldDonation gs p.1 p.2) []

def strongDemocratic : Str := "Strong Democratic".toList
def strongRepublican : Str := "Strong Republican".toList
def leanDemocratic : Str := "Lean Democratic".toList
def leanRepublican : Str := "Lean Republican".toList
def mixedIndependent : Str := "Mixed/Independent".toList
def unknownLabel : Str := "Unknown".toList

/-- The `party_analysis` dict after the percentage-and-label pass
(lines 316-341). -/
structure FinalAnalysis where
  analysis : PartyAnalysis
  democratic_percentage : ℚ
  republican_percentage : ℚ
  other_percentage : ℚ
  party_preference : Str
deriving DecidableEq

/-- The percentage computation and label assignment of
`group_donors_and_analyze_party` (lines 316-341). -/
def finalizeAnalysis (a : PartyAnalysis) : FinalAnalysis :=
  if 0 < a.total_donations then
    let dp : ℚ := (a.democratic_count : ℚ) / (a.total_donations : ℚ) * 100
    let rp : ℚ := (a.republican_count : ℚ) / (a.total_donations : ℚ) * 100
    let op : ℚ := (a.other_count : ℚ) / (a.total_donations : ℚ) * 100
    { analysis := a,
      democratic_percentage := dp, republican_percentage := rp,
      other_percentage := op,
      party_preference :=
        if 80 ≤ dp then strongDemocratic
        else if 80 ≤ rp then strongRepublican
        else if rp < dp then leanDemocratic
        else if dp < rp then leanRepublican
        else mixedIndependent }
  else
    { analysis := a,
      democratic_percentage := 0, republican_percentage := 0,
      other_percentage := 0, party_preference := unknownLabel }

/-- A donor group after the percentage-and-label pass. -/
structure FinalGroup where
  donor_info : DonorInfo
  donations : List Donation
  party_analysis : FinalAnalysis
deriving DecidableEq

def finalizeGroup (g : DonorGroup) : FinalGroup :=
  { donor_info := g.donor_info, donations := g.donations,
    party_analysis := finalizeAnalysis g.party_analysis }

/-- Embeds `group_donors_and_analyze_party` (lines 255-343). -/
def group_donors_and_analyze_party (results : List QueryResult) :
    List (Str × FinalGroup) :=
  (foldAllDonations (collectDonations results)).map
    (fun p => (p.1, finalizeGroup p.2))

/-! ### Name/Address Splitter (spec §4.1), modelled from the spec -/

/-- Modelled from the spec: whitespace tokenisation used by §4.1's QueryName
parsing (the splitter itself is not under `src/`). -/
def pyTokens (s : Str) : List Str :=
  (s.foldr
    (fun c acc =>
      if pyIsSpace c then [] :: acc
      else
        match acc with
        | [] => [[c]]
        | t :: ts => (c :: t) :: ts)
    []).filter (fun t => !t.isEmpty)

/-- Modelled from the spec: §4.1's QueryName parsing rule, returning
`(first, last)`.  With a comma, `last` is the text before the comma and
`first` the first whitespace-token after it; otherwise `first`/`last` are the
first/last whitespace-tokens, a single token giving an empty `last`. -/
def splitQueryName (q : Str) : Str × Str :=
  if q.any (fun c => decide (c = ',')) then
    ((pyTokens ((q.dropWhile (fun c => decide (c ≠ ','))).drop 1)).headD [],
     q.takeWhile (fun c => decide (c ≠ ',')))
  else
    match pyTokens q with
    | [] => ([], [])
    | [t] => (t, [])
    | t :: ts => (t, ts.getLastD [])

/-- Index of the first occurrence of `needle` in `hay`, if any. -/
def firstOccurIdx (needle : Str) : Str → Option Nat
  | [] => if needle.isPrefixOf [] then some 0 else none
  | c :: rest =>
    if needle.isPrefixOf (c :: rest) then some 0
    else (firstOccurIdx needle rest).map (· + 1)

/-- Index of the last occurrence of `needle` in `hay`, if any. -/
def lastOccurIdx (needle hay : Str) : Option Nat :=
  ((List.range (hay.length + 1)).filter
    (fun i => needle.isPrefixOf (hay.drop i))).getLast?

/-- Occurrence of `needle` as a contiguous substring of `hay`
(stated with a length bound so it stays decidable). -/
def occursIn (needle hay : Str) : Prop :=
  ∃ i, i < hay.length + 1 ∧ needle.isPrefixOf (hay.drop i) = true

instance (needle hay : Str) : Decidable (occursIn needle hay) := by
  unfold occursIn; infer_instance

/-- Modelled from the spec: the §4.1 Name/Address Splitter `split(blob,
queryName)` (not under `src/`).  Matching is case-insensitive on an
upper-cased copy, slicing happens on the original blob; steps 1-4 and
fallbacks A-C follow the spec text, returning trimmed parts (fallback C
returns the blob untouched). -/
def splitBlob (blob queryName : Str) : Str × Str :=
  let fl := splitQueryName queryName
  let ufirst := pyUpper fl.1
  let ulast := pyUpper fl.2
  let ublob := pyUpper blob
  let cut := fun (b : Nat) => (pyStrip (blob.take b), pyStrip (blob.drop b))
  match (if ufirst.isEmpty then none else firstOccurIdx ufirst ublob) with
  | some i =>
    if ¬ ulast.isEmpty ∧ (ulast ++ [',']).isPrefixOf (ublob.take i) then
      cut (i + ufirst.length)
    else if ¬ ulast.isEmpty then
      match lastOccurIdx ulast ublob with
      | some j => cut (j + ulast.length)
      | none => cut (i + ufirst.length)
    else cut (i + ufirst.length)
  | none =>
    if ¬ ulast.isEmpty then
      match lastOccurIdx ulast ublob with
      | some j => cut (j + ulast.length)
      | none => (blob, [])
    else (blob, [])

/-! ### Fuzzy Variant Grouper (spec §4.3), modelled from the spec -/

/-- Modelled from the spec: a DonationRecord as the §4.3 Grouper sees it
(only the name and address fields participate; the Grouper is not under
`src/`). -/
structure SpecRecord where
  contributor_name : Str
  contributor_address : Str
deriving DecidableEq

/-- Modelled from the spec: a §3 VariantGroup. -/
structure VariantGroup where
  representative_name : Str
  representative_address : Str
  member_records : List SpecRecord
deriving DecidableEq

/-- Length of the common prefix of two strings. -/
def commonRun : Str → Str → Nat
  | a :: as, b :: bs => if a = b then commonRun as bs + 1 else 0
  | _, _ => 0

/-- Modelled from the spec: the longest contiguous matching block of §4.3's
sequence-matching ratio, found by brute force over all start pairs;
returns `(i, j, size)`. -/
def bestBlock (a b : Str) : Nat × Nat × Nat :=
  ((List.range a.length).flatMap
    (fun i => (List.range b.length).map
      (fun j => (i, j, commonRun (a.drop i) (b.drop j))))).foldl
    (fun best c => if best.2.2 < c.2.2 then c else best) (0, 0, 0)

/-- Modelled from the spec: total length `M` of the matching blocks of §4.3
(longest block, then recurse on both sides), written with explicit fuel. -/
def matchSumF : Nat → Str → Str → Nat
  | 0, _, _ => 0
  | Nat.succ fuel, a, b =>
    let t := bestBlock a b
    if t.2.2 = 0 then 0
    else
      t.2.2 + matchSumF fuel (a.take t.1) (b.take t.2.1)
        + matchSumF fuel (a.drop (t.1 + t.2.2)) (b.drop (t.2.1 + t.2.2))

/-- Total matching-block length `M` for two already-normalised strings. -/
def matchTotal (a b : Str) : Nat := matchSumF (a.length + 1) a b

/-- Modelled from the spec: §4.3 normalisation (upper-cased,
whitespace-trimmed address strings). -/
def normAddr (s : Str) : Str := pyUpper (pyStrip s)

/-- Modelled from the spec: the §4.3 similarity `ratio = 2·M / T`, with
`T = 0` (both strings empty after normalisation) giving `0.0`. -/
def simRatio (a b : Str) : ℚ :=
  let a2 := normAddr a
  let b2 := normAddr b
  let t := a2.length + b2.length
  if t = 0 then 0 else (2 * (matchTotal a2 b2) : ℚ) / (t : ℚ)

/-- The grouper's similarity test `ratio ≥ 0.80`, written over integers so it
stays kernel-executable; `simAtLeast80_iff` proves it equal to the `ℚ`-level
test on `simRatio`. -/
def simAtLeast80 (a b : Str) : Bool :=
  let a2 := normAddr a
  let b2 := normAddr b
  let t := a2.length + b2.length
  decide (¬ t = 0 ∧ 4 * t ≤ 10 * matchTotal a2 b2)

/-- Modelled from the spec: the §4.3 greedy grouping pass.  The first
unconsumed record seeds a group and absorbs every later unconsumed record
whose address similarity reaches 0.80; the rest are grouped recursively. -/
def groupRecords : List SpecRecord → List VariantGroup
  | [] => []
  | r :: rest =>
    { representative_name := r.contributor_name,
      representative_address := r.contributor_address,
      member_records :=
        r :: rest.filter
          (fun x => simAtLeast80 r.contributor_address x.contributor_address) }
    :: groupRecords (rest.filter
        (fun x => ! simAtLeast80 r.contributor_address x.contributor_address))
termination_by l => l.length
decreasing_by
  simp only [List.length_cons]
  exact Nat.lt_succ_of_le (List.length_filter_le _ rest)

/-! ### Claim-side (specification-worded) definitions and declarative
predicates used in the claim statements -/

/-- The DonorKey exactly as §4.4 words it: the case-normalised
`{name}|{state}|{employer}|{occupation}` where `name` is the substring of
the contributor field before the first newline, trimmed. -/
def donorKeySpec (d : Donation) : Str :=
  pyUpper (pyStrip (takeBeforeNL d.contributor) ++ ['|']
    ++ d.contributor_state ++ ['|']
    ++ d.employer ++ ['|']
    ++ d.occupation)

/-- Declarative reading of an occurrence of the amount pattern
`\$<digits and commas>` at position `i`. -/
def amountPatternAt (s : Str) (i : Nat) : Prop :=
  ∃ g rest, s.drop i = '$' :: (g ++ rest) ∧ g ≠ [] ∧
    ∀ c ∈ g, digitOrComma c = true

/-- Declarative reading of an occurrence of `[A-Z]{2}\s+\d{5}` at
position `i` whose captured group is `[a, b]`: the two uppercase letters
`a` and `b`, then a nonempty whitespace run, then five digits. -/
def stateDeclGroupAt (s : Str) (i : Nat) (a b : Char) : Prop :=
  ∃ ws ds rest, s.drop i = a :: b :: (ws ++ (ds ++ rest)) ∧
    isUpperAZ a = true ∧ isUpperAZ b = true ∧
    ws ≠ [] ∧ (∀ c ∈ ws, pyIsSpace c = true) ∧
    ds.length = 5 ∧ (∀ c ∈ ds, pyIsDigit c = true)

/-- Declarative reading of an occurrence of `[A-Z]{2}\s+\d{5}` at
position `i`, with the captured letters existentially bound. -/
def stateDeclAt (s : Str) (i : Nat) : Prop :=
  ∃ a b, stateDeclGroupAt s i a b

/-- Declarative reading of an occurrence of `\(([DR])\)` at position `i`
whose captured group is `[c]`. -/
def partyDeclGroupAt (s : Str) (i : Nat) (c : Char) : Prop :=
  ∃ rest, s.drop i = '(' :: c :: ')' :: rest ∧ (c = 'D' ∨ c = 'R')

/-- Declarative reading of an occurrence of `\(([DR])\)` at position `i`,
with the captured letter existentially bound. -/
def partyDeclAt (s : Str) (i : Nat) : Prop :=
  ∃ c, partyDeclGroupAt s i c

/-! ### Helper definitions for reasoning about the folding loop -/

/-- Fold a tagged record suffix into an existing group. -/
def extendGroup (g : DonorGroup) (ds : List (Str × Donation)) : DonorGroup :=
  ds.foldl (fun g p => addDonation p.2 g) g

/-- What the folding loop leaves at one key, given the records at that key:
nothing if the key never occurs, otherwise the group seeded by the first
record and extended with the rest. -/
def mergeOpt : Option DonorGroup → List (Str × Donation) → Option DonorGroup
  | some g, ds => some (extendGroup g ds)
  | none, [] => none
  | none, (s, d) :: ds => some (extendGroup (addDonation d (newGroup s d)) ds)

/-! ### Concrete inputs used by witnesses and counterexamples -/

/-- A donation with every text field empty and amount 0. -/
def blankDonation : Donation :=
  { category := [], contributor := [], employer := [], occupation := [],
    date := [], amount := [], recipient := [], jurisdiction := [],
    amount_numeric := 0, contributor_state := [], recipient_party := [] }

/-- Lower-case contributor variant. -/
def exDonLower : Donation := { blankDonation with contributor := ['a'] }

/-- Upper-case contributor variant, same `DonorKey` as `exDonLower`. -/
def exDonUpper : Donation := { blankDonation with contributor := ['A'] }

/-- A donation to a `(D)` recipient. -/
def exDonD : Donation := { blankDonation with recipient_party := ['D'] }

/-- A successful one-donation query result. -/
def exResultD : QueryResult :=
  { name := [], status_code := some 200, donations := [exDonD],
    total_donations := 1, total_amount := 0, success := true, error := none }

/-- The group `exDonD` folds to. -/
def exGroupD : DonorGroup := addDonation exDonD (newGroup [] exDonD)

/-- Two grouper records sharing one address. -/
def exRecA : SpecRecord := ⟨['A'], "12 MAIN ST".toList⟩

def exRecB : SpecRecord := ⟨['B'], "12 MAIN ST".toList⟩

/-! ## Lemmas -/

section CharLemmas

theorem char_eq_of_toNat_eq {c d : Char} (h : c.toNat = d.toNat) : c = d := by
  apply Char.eq_of_val_eq
  apply UInt32.eq_of_toBitVec_eq
  have h2 : c.val.toNat = d.val.toNat := h
  exact BitVec.eq_of_toNat_eq h2

theorem pyToUpper_toNat (c : Char) :
    (pyToUpper c).toNat =
      if 97 ≤ c.toNat ∧ c.toNat ≤ 122 then c.toNat - 32 else c.toNat := by
  unfold pyToUpper
  split
  · next h =>
    unfold Char.ofNat
    split
    · rfl
    · next h2 => exact absurd (Or.inl (by omega)) h2
  · rfl

theorem pyToUpper_newline_iff (c : Char) : pyToUpper c = '\n' ↔ c = '\n' := by
  constructor
  · intro h
    have h2 : (pyToUpper c).toNat = 10 := by rw [h]; rfl
    rw [pyToUpper_toNat] at h2
    apply char_eq_of_toNat_eq
    show c.toNat = ('\n').toNat
    have hn : ('\n').toNat = 10 := rfl
    rw [hn]
    split at h2 <;> omega
  · intro h
    subst h
    rfl

theorem pyIsSpace_pyToUpper (c : Char) : pyIsSpace (pyToUpper c) = pyIsSpace c := by
  unfold pyIsSpace
  rw [pyToUpper_toNat]
  split
  · next h => simp only [decide_eq_decide]; omega
  · rfl

end CharLemmas

section StringLemmas

theorem pyUpper_append (s t : Str) : pyUpper (s ++ t) = pyUpper s ++ pyUpper t :=
  List.map_append pyToUpper s t

theorem pyUpper_takeBeforeNL (s : Str) :
    pyUpper (takeBeforeNL s) = takeBeforeNL (pyUpper s) := by
  unfold pyUpper takeBeforeNL
  have hfe : ((fun c => decide (c ≠ '\n')) ∘ pyToUpper)
      = (fun c => decide (c ≠ '\n')) := by
    funext c
    simp only [Function.comp_apply, decide_eq_decide]
    exact not_congr (pyToUpper_newline_iff c)
  rw [List.takeWhile_map, hfe]

theorem pyUpper_pyStrip (s : Str) : pyUpper (pyStrip s) = pyStrip (pyUpper s) := by
  unfold pyUpper pyStrip
  have hge : (pyIsSpace ∘ pyToUpper) = pyIsSpace := funext pyIsSpace_pyToUpper
  rw [List.dropWhile_map, hge, ← List.map_reverse, List.dropWhile_map, hge,
    ← List.map_reverse]

end StringLemmas

section ScanLemmas

variable {α : Type} {m : Str → Option α}

theorem scanFirst_eq_some : ∀ (s : Str) (a : α), scanFirst m s = some a →
    ∃ i, m (s.drop i) = some a ∧ ∀ j < i, m (s.drop j) = none := by
  intro s
  induction s with
  | nil =>
    intro a h
    refine ⟨0, ?_, by omega⟩
    simpa [scanFirst] using h
  | cons c rest ih =>
    intro a h
    rw [scanFirst] at h
    cases hm : m (c :: rest) with
    | some b =>
      rw [hm] at h
      refine ⟨0, ?_, by omega⟩
      simpa [hm] using h
    | none =>
      rw [hm] at h
      obtain ⟨i, hi, hmin⟩ := ih a h
      refine ⟨i + 1, by simpa using hi, ?_⟩
      intro j hj
      cases j with
      | zero => simpa using hm
      | succ j2 => simpa using hmin j2 (by omega)

theorem scanFirst_eq_none : ∀ s : Str, scanFirst m s = none ↔
    ∀ i, m (s.drop i) = none := by
  intro s
  induction s with
  | nil =>
    simp only [scanFirst, List.drop_nil]
    exact ⟨fun h _ => h, fun h => h 0⟩
  | cons c rest ih =>
    rw [scanFirst]
    cases hm : m (c :: rest) with
    | some b =>
      constructor
      · intro h
        exact absurd h (by simp)
      · intro h
        have h0 := h 0
        rw [List.drop_zero] at h0
        rw [hm] at h0
        exact h0
    | none =>
      rw [ih]
      constructor
      · intro h i
        cases i with
        | zero => simpa using hm
        | succ j => simpa using h j
      · intro h j
        simpa using h (j + 1)

end ScanLemmas

section ListHelperLemmas

theorem head_dropWhile_not {p : Char → Bool} :
    ∀ (l : Str) (c : Char), (l.dropWhile p).head? = some c → p c = false := by
  intro l
  induction l with
  | nil => intro c h; simp [List.dropWhile] at h
  | cons a as ih =>
    intro c h
    rw [List.dropWhile_cons] at h
    by_cases hp : p a
    · rw [if_pos hp] at h; exact ih c h
    · rw [if_neg hp] at h
      simp only [List.head?_cons, Option.some.injEq] at h
      subst h
      exact Bool.eq_false_iff.mpr hp

theorem drop_length_takeWhile {p : Char → Bool} :
    ∀ l : Str, l.drop (l.takeWhile p).length = l.dropWhile p := by
  intro l
  induction l with
  | nil => rfl
  | cons a as ih =>
    rw [List.takeWhile_cons, List.dropWhile_cons]
    by_cases hp : p a
    · rw [if_pos hp, if_pos hp]
      simpa using ih
    · rw [if_neg hp, if_neg hp]
      rfl

theorem mem_takeWhile_pred {p : Char → Bool} {l : Str} {c : Char}
    (h : c ∈ l.takeWhile p) : p c = true :=
  List.all_eq_true.mp (List.all_takeWhile : (l.takeWhile p).all p = true) c h

end ListHelperLemmas

section AmountLemmas

theorem collectDonations_cons (r : QueryResult) (rest : List QueryResult) :
    collectDonations (r :: rest)
      = (if r.success && !r.donations.isEmpty then
          r.donations.map (fun d => (r.name, d)) else []) ++ collectDonations rest := rfl

theorem amountGroupMatch_some {s2 g : Str} (h : amountGroupMatch s2 = some g) :
    ∃ rest, s2 = '$' :: (g ++ rest) ∧ g ≠ []
      ∧ (∀ c ∈ g, digitOrComma c = true)
      ∧ (∀ c, rest.head? = some c → digitOrComma c = false) := by
  cases s2 with
  | nil => exact absurd h (by simp [amountGroupMatch])
  | cons c t =>
    simp only [amountGroupMatch] at h
    by_cases hc : c = '$'
    · rw [if_pos hc] at h
      subst hc
      by_cases hg : (t.takeWhile digitOrComma).isEmpty
      · rw [if_pos hg] at h
        cases h
      · rw [if_neg hg] at h
        have hgeq : g = t.takeWhile digitOrComma := by
          cases h
          rfl
        subst hgeq
        refine ⟨t.dropWhile digitOrComma, ?_, ?_, ?_, ?_⟩
        · rw [List.takeWhile_append_dropWhile]
        · intro hnil
          rw [hnil] at hg
          exact hg rfl
        · intro c2 hc2
          exact mem_takeWhile_pred hc2
        · intro c2 hc2
          exact head_dropWhile_not t c2 hc2
    · rw [if_neg hc] at h
      cases h

theorem foldl_digits_nonneg :
    ∀ (l : Str) (a : Int), 0 ≤ a → (∀ c ∈ l, 48 ≤ c.toNat) →
      0 ≤ l.foldl (fun a c => a * 10 + ((c.toNat : Int) - 48)) a := by
  intro l
  induction l with
  | nil => intro a ha _; exact ha
  | cons c t ih =>
    intro a ha hd
    rw [List.foldl_cons]
    apply ih
    · have h48 : 48 ≤ c.toNat := hd c (by simp)
      have : (48 : Int) ≤ (c.toNat : Int) := by exact_mod_cast h48
      nlinarith
    · intro c2 hc2
      exact hd c2 (by simp [hc2])

end AmountLemmas

/-- C10: for every per-query result returned by the donor lookup (success or
failure), `total_donations` equals the length of its donations list and
`total_amount` equals the sum of `amount_numeric` over its donations (both 0
with an empty donations list on failure). -/
theorem c10_result_totals (name : Str) (fetch : FetchOutcome) :
    (query_opensecrets_donor name fetch).total_donations
      = (query_opensecrets_donor name fetch).donations.length
    ∧ (query_opensecrets_donor name fetch).total_amount
      = ((query_opensecrets_donor name fetch).donations.map
          Donation.amount_numeric).sum := by
  cases fetch <;> exact ⟨rfl, rfl⟩

/-- C9: a query whose fetch fails yields `success = false` with a non-null
error string and an empty donations list, and aggregation over any result
list equals aggregation over only its `success = true` entries, so a failed
query contributes no records. -/
theorem c9_failure_isolation (name e : Str) (results : List QueryResult) :
    (query_opensecrets_donor name (.err e)).success = false
    ∧ (query_opensecrets_donor name (.err e)).error = some e
    ∧ (query_opensecrets_donor name (.err e)).donations = []
    ∧ group_donors_and_analyze_party results
        = group_donors_and_analyze_party (results.filter (fun r => r.success)) := by
  refine ⟨rfl, rfl, rfl, ?_⟩
  have hc : collectDonations (results.filter (fun r => r.success))
      = collectDonations results := by
    induction results with
    | nil => rfl
    | cons r rest ih =>
      rw [List.filter_cons]
      cases hr : r.success with
      | false =>
        simp only [Bool.false_eq_true, if_false]
        rw [ih, collectDonations_cons, hr]
        simp
      | true =>
        simp only [if_true]
        rw [collectDonations_cons, collectDonations_cons, ih, hr]
  unfold group_donors_and_analyze_party foldAllDonations
  rw [hc]

/-- C7: extraction always skips the row at index 0, discards every row with
fewer than 8 cells without error, and a row on which field derivation fails
is skipped on its own while the remaining rows are still extracted. -/
theorem c7_row_error_containment :
    (∀ (hdr : List Str) (rows : List (List Str)),
        parse_donation_table (hdr :: rows) = rows.filterMap parseRow)
    ∧ (∀ cells : List Str, cells.length < 8 → parseRow cells = none)
    ∧ (∀ (pre post : List (List Str)) (bad : List Str), parseRow bad = none →
        (pre ++ bad :: post).filterMap parseRow
          = pre.filterMap parseRow ++ post.filterMap parseRow) := by
  refine ⟨fun hdr rows => rfl, ?_, ?_⟩
  · intro cells h
    unfold parseRow
    rw [if_neg (by omega)]
  · intro pre post bad hbad
    rw [List.filterMap_append]
    congr 1
    rw [List.filterMap_cons, hbad]

theorem c7_witness :
    parse_donation_table [[]] = [] ∧ parseRow [[], []] = none
    ∧ ([[['x']]] ++ [] :: []).filterMap parseRow
        = [[['x']]].filterMap parseRow ++ ([] : List (List Str)).filterMap parseRow :=
  ⟨c7_row_error_containment.1 [] [],
   c7_row_error_containment.2.1 [[], []] (by decide),
   c7_row_error_containment.2.2 [[['x']]] [] [] (by decide)⟩

/-- C6 counterexample: on the cell `"$,"` the code's regex `\$([\d,]+)`
matches with group `","`; stripping commas leaves `int('')`, which raises
instead of yielding a number, so amount parsing is not error-free as the
claim states. -/
theorem c6_counterexample : amountNumeric ("$,".toList) = none := by decide

/-- C6 (amended): amount parsing finds `\$([\d,]+)` and converts the group
with commas stripped (`"$1,234"` gives 1234); a cell without the pattern
(`"N/A"`, a bare negative amount) gives 0; every produced value is
non-negative; the match is the leftmost one and its group is the maximal
digit-and-comma run after the `$`.  The one exception (forced by the
counterexample) is a matched group containing no digits, where the
conversion raises and the row is dropped by the extractor. -/
theorem c6_amount_parsing :
    amountNumeric ("$1,234".toList) = some 1234
    ∧ amountNumeric ("N/A".toList) = some 0
    ∧ amountNumeric ("-1234".toList) = some 0
    ∧ (∀ s : Str, (∀ i, ¬ amountPatternAt s i) → amountNumeric s = some 0)
    ∧ (∀ (s : Str) (v : Int), amountNumeric s = some v → 0 ≤ v)
    ∧ (∀ (s g : Str), scanFirst amountGroupMatch s = some g →
        ∃ i rest, s.drop i = '$' :: (g ++ rest) ∧ g ≠ []
          ∧ (∀ c ∈ g, digitOrComma c = true)
          ∧ (∀ c, rest.head? = some c → digitOrComma c = false)
          ∧ ∀ j < i, amountGroupMatch (s.drop j) = none) := by
  refine ⟨by decide, by decide, by decide, ?_, ?_, ?_⟩
  · intro s h
    cases hscan : scanFirst amountGroupMatch s with
    | none => simp [amountNumeric, hscan]
    | some g =>
      exfalso
      obtain ⟨i, hi, _⟩ := scanFirst_eq_some s g hscan
      obtain ⟨rest, heq, hne, hall, _⟩ := amountGroupMatch_some hi
      exact h i ⟨g, rest, heq, hne, hall⟩
  · intro s v h
    unfold amountNumeric at h
    cases hscan : scanFirst amountGroupMatch s with
    | none =>
      rw [hscan] at h
      simp only [Option.some.injEq] at h
      omega
    | some g =>
      rw [hscan] at h
      simp only [pyIntDigits] at h
      split at h
      · cases h
      · simp only [Option.some.injEq] at h
        subst h
        apply foldl_digits_nonneg
        · omega
        · intro c hc
          have hmem := List.mem_filter.mp hc
          obtain ⟨rest, _, _, hall, _⟩ := amountGroupMatch_some
            (scanFirst_eq_some s g hscan).choose_spec.1
          have hdc := hall c hmem.1
          have hnc : ¬ c = ',' := by
            have := hmem.2
            simpa using this
          unfold digitOrComma at hdc
          rw [Bool.or_eq_true] at hdc
          cases hdc with
          | inl hd =>
            have := of_decide_eq_true hd
            unfold pyIsDigit at this
            omega
          | inr hc2 => exact absurd (of_decide_eq_true hc2) hnc
  · intro s g hscan
    obtain ⟨i, hi, hmin⟩ := scanFirst_eq_some s g hscan
    obtain ⟨rest, heq, hne, hall, hmax⟩ := amountGroupMatch_some hi
    exact ⟨i, rest, heq, hne, hall, hmax, hmin⟩

theorem c6_witness :
    amountNumeric ("$1,234".toList) = some 1234 ∧ (0 : Int) ≤ 1234 :=
  ⟨by decide, c6_amount_parsing.2.2.2.2.1 ("$1,234".toList) 1234 (by decide)⟩

section StatePartyLemmas

theorem stateGroupMatch_some {s2 r : Str} (h : stateGroupMatch s2 = some r) :
    ∃ a b ws ds rest, s2 = a :: b :: (ws ++ (ds ++ rest)) ∧ r = [a, b]
      ∧ isUpperAZ a = true ∧ isUpperAZ b = true
      ∧ ws ≠ [] ∧ (∀ c ∈ ws, pyIsSpace c = true)
      ∧ ds.length = 5 ∧ (∀ c ∈ ds, pyIsDigit c = true) := by
  match s2 with
  | [] => exact absurd h (by simp [stateGroupMatch])
  | [a] => exact absurd h (by simp [stateGroupMatch])
  | a :: b :: rest0 =>
    simp only [stateGroupMatch] at h
    by_cases hab : (isUpperAZ a && isUpperAZ b) = true
    · rw [if_pos hab] at h
      by_cases hws : (rest0.takeWhile pyIsSpace).isEmpty
      · rw [if_pos hws] at h
        cases h
      · rw [if_neg hws] at h
        by_cases hd5 : (((rest0.drop (rest0.takeWhile pyIsSpace).length).take 5).length = 5
            && ((rest0.drop (rest0.takeWhile pyIsSpace).length).take 5).all pyIsDigit) = true
        · rw [if_pos hd5] at h
          have hr : r = [a, b] := by cases h; rfl
          rw [Bool.and_eq_true] at hab hd5
          obtain ⟨hab1, hab2⟩ := hab
          obtain ⟨hlen, hdig⟩ := hd5
          refine ⟨a, b, rest0.takeWhile pyIsSpace,
            (rest0.drop (rest0.takeWhile pyIsSpace).length).take 5,
            (rest0.drop (rest0.takeWhile pyIsSpace).length).drop 5,
            ?_, hr, hab1, hab2, ?_, ?_, ?_, ?_⟩
          · rw [List.take_append_drop, drop_length_takeWhile,
              List.takeWhile_append_dropWhile]
          · intro hnil
            rw [hnil] at hws
            exact hws rfl
          · intro c hc
            exact mem_takeWhile_pred hc
          · exact of_decide_eq_true hlen
          · intro c hc
            exact List.all_eq_true.mp hdig c hc
        · rw [if_neg hd5] at h
          cases h
    · rw [if_neg hab] at h
      cases h

end StatePartyLemmas

theorem partyGroupMatch_some {s2 r : Str} (h : partyGroupMatch s2 = some r) :
    ∃ c rest, s2 = '(' :: c :: ')' :: rest ∧ r = [c] ∧ (c = 'D' ∨ c = 'R') := by
  match s2 with
  | [] => exact absurd h (by simp [partyGroupMatch])
  | [a] => exact absurd h (by simp [partyGroupMatch])
  | [a, c] => exact absurd h (by simp [partyGroupMatch])
  | a :: c :: b :: rest =>
    simp only [partyGroupMatch] at h
    by_cases hc : a = '(' ∧ b = ')' ∧ (c = 'D' ∨ c = 'R')
    · rw [if_pos hc] at h
      have hr : r = [c] := by cases h; rfl
      exact ⟨c, rest, by rw [hc.1, hc.2.1], hr, hc.2.2⟩
    · rw [if_neg hc] at h
      cases h

theorem pyIsSpace_of_digit_false {c : Char} (h : pyIsDigit c = true) :
    pyIsSpace c = false := by
  unfold pyIsDigit at h
  unfold pyIsSpace
  rw [decide_eq_true_eq] at h
  rw [decide_eq_false_iff_not]
  omega

theorem takeWhile_append_of_all {p : Char → Bool} :
    ∀ (ws l : Str), (∀ c ∈ ws, p c = true) →
      (∀ c, l.head? = some c → p c = false) →
      (ws ++ l).takeWhile p = ws := by
  intro ws
  induction ws with
  | nil =>
    intro l h1 h2
    cases l with
    | nil => rfl
    | cons d l2 =>
      rw [List.nil_append, List.takeWhile_cons, h2 d rfl]
      rfl
  | cons w ws ih =>
    intro l h1 h2
    rw [List.cons_append, List.takeWhile_cons, h1 w (by simp), if_pos rfl,
      ih l (fun c hc => h1 c (by simp [hc])) h2]

theorem stateGroupMatch_complete {s2 : Str} {a b : Char} {ws ds rest : Str}
    (heq : s2 = a :: b :: (ws ++ (ds ++ rest)))
    (ha : isUpperAZ a = true) (hb : isUpperAZ b = true)
    (hws : ws ≠ []) (hsp : ∀ c ∈ ws, pyIsSpace c = true)
    (hlen : ds.length = 5) (hdig : ∀ c ∈ ds, pyIsDigit c = true) :
    stateGroupMatch s2 = some [a, b] := by
  subst heq
  have hhead : ∀ c2, (ds ++ rest).head? = some c2 → pyIsSpace c2 = false := by
    intro c2 hc2
    cases hds : ds with
    | nil =>
      rw [hds] at hlen
      simp at hlen
    | cons d0 ds2 =>
      rw [hds, List.cons_append, List.head?_cons] at hc2
      injection hc2 with hcd
      subst hcd
      exact pyIsSpace_of_digit_false (hdig d0 (hds ▸ List.mem_cons_self d0 ds2))
  have htw : (ws ++ (ds ++ rest)).takeWhile pyIsSpace = ws :=
    takeWhile_append_of_all ws (ds ++ rest) hsp hhead
  have hdrop : (ws ++ (ds ++ rest)).drop ws.length = ds ++ rest :=
    List.drop_left ws (ds ++ rest)
  have htake : (ds ++ rest).take 5 = ds := by
    rw [← hlen]
    exact List.take_left ds rest
  have hwse : ws.isEmpty = false := by
    cases ws with
    | nil => exact absurd rfl hws
    | cons w ws2 => rfl
  simp only [stateGroupMatch, ha, hb, Bool.and_self, if_true, htw, hdrop,
    htake, hwse, Bool.false_eq_true, if_false]
  rw [if_pos]
  rw [Bool.and_eq_true, decide_eq_true_eq]
  exact ⟨hlen, List.all_eq_true.mpr hdig⟩

theorem partyGroupMatch_complete {s2 : Str} {c : Char} {rest : Str}
    (heq : s2 = '(' :: c :: ')' :: rest) (hdr : c = 'D' ∨ c = 'R') :
    partyGroupMatch s2 = some [c] := by
  subst heq
  have hdef : partyGroupMatch ('(' :: c :: ')' :: rest)
      = if ('(' : Char) = '(' ∧ (')' : Char) = ')' ∧ (c = 'D' ∨ c = 'R')
        then some [c] else none := rfl
  rw [hdef, if_pos ⟨rfl, rfl, hdr⟩]

/-- C8: `contributor_state` is exactly the two-letter group captured at the
leftmost occurrence of two uppercase letters followed by whitespace and a
5-digit code (and the empty string, never null, when no occurrence exists),
and `recipient_party` is exactly the D or R captured at the leftmost
parenthesised occurrence (and the empty string, never null, when no
occurrence exists). -/
theorem c8_state_party_parsing :
    (∀ s : Str, (∀ i, ¬ stateDeclAt s i) → contributorState s = [])
    ∧ (∀ s : Str, (∃ i, stateDeclAt s i) →
        ∃ i a b, stateDeclGroupAt s i a b ∧ contributorState s = [a, b]
          ∧ ∀ j < i, ¬ stateDeclAt s j)
    ∧ (∀ s : Str, (∀ i, ¬ partyDeclAt s i) → recipientParty s = [])
    ∧ (∀ s : Str, (∃ i, partyDeclAt s i) →
        ∃ i c, partyDeclGroupAt s i c ∧ recipientParty s = [c]
          ∧ ∀ j < i, ¬ partyDeclAt s j) := by
  refine ⟨?_, ?_, ?_, ?_⟩
  · intro s h
    cases hscan : scanFirst stateGroupMatch s with
    | none => simp [contributorState, hscan]
    | some r =>
      exfalso
      obtain ⟨i, hi, _⟩ := scanFirst_eq_some s r hscan
      obtain ⟨a, b, ws, ds, rest, heq, _, ha, hb, hws, hsp, hlen, hdig⟩ :=
        stateGroupMatch_some hi
      exact h i ⟨a, b, ws, ds, rest, heq, ha, hb, hws, hsp, hlen, hdig⟩
  · intro s hex
    cases hscan : scanFirst stateGroupMatch s with
    | none =>
      exfalso
      obtain ⟨i0, a, b, ws, ds, rest, heq, ha, hb, hws, hsp, hlen, hdig⟩ := hex
      have hnone := (scanFirst_eq_none s).mp hscan i0
      rw [stateGroupMatch_complete heq ha hb hws hsp hlen hdig] at hnone
      cases hnone
    | some r =>
      obtain ⟨i, hi, hmin⟩ := scanFirst_eq_some s r hscan
      obtain ⟨a, b, ws, ds, rest, heq, hr, ha, hb, hws, hsp, hlen, hdig⟩ :=
        stateGroupMatch_some hi
      refine ⟨i, a, b, ⟨ws, ds, rest, heq, ha, hb, hws, hsp, hlen, hdig⟩, ?_, ?_⟩
      · rw [contributorState, hscan, hr]
        rfl
      · intro j hj hdj
        obtain ⟨a2, b2, ws2, ds2, rest2, heq2, ha2, hb2, hws2, hsp2, hlen2, hdig2⟩ :=
          hdj
        have hmj := hmin j hj
        rw [stateGroupMatch_complete heq2 ha2 hb2 hws2 hsp2 hlen2 hdig2] at hmj
        cases hmj
  · intro s h
    cases hscan : scanFirst partyGroupMatch s with
    | none => simp [recipientParty, hscan]
    | some r =>
      exfalso
      obtain ⟨i, hi, _⟩ := scanFirst_eq_some s r hscan
      obtain ⟨c, rest, heq, _, hdr⟩ := partyGroupMatch_some hi
      exact h i ⟨c, rest, heq, hdr⟩
  · intro s hex
    cases hscan : scanFirst partyGroupMatch s with
    | none =>
      exfalso
      obtain ⟨i0, c, rest, heq, hdr⟩ := hex
      have hnone := (scanFirst_eq_none s).mp hscan i0
      rw [partyGroupMatch_complete heq hdr] at hnone
      cases hnone
    | some r =>
      obtain ⟨i, hi, hmin⟩ := scanFirst_eq_some s r hscan
      obtain ⟨c, rest, heq, hr, hdr⟩ := partyGroupMatch_some hi
      refine ⟨i, c, ⟨rest, heq, hdr⟩, ?_, ?_⟩
      · rw [recipientParty, hscan, hr]
        rfl
      · intro j hj hdj
        obtain ⟨c2, rest2, heq2, hdr2⟩ := hdj
        have hmj := hmin j hj
        rw [partyGroupMatch_complete heq2 hdr2] at hmj
        cases hmj

theorem c8_witness :
    (∃ i a b, stateDeclGroupAt ("DUNWOODY, GA 30360".toList) i a b
      ∧ contributorState ("DUNWOODY, GA 30360".toList) = [a, b]
      ∧ ∀ j < i, ¬ stateDeclAt ("DUNWOODY, GA 30360".toList) j)
    ∧ (∃ i c, partyDeclGroupAt ("SMITH (D)".toList) i c
      ∧ recipientParty ("SMITH (D)".toList) = [c]
      ∧ ∀ j < i, ¬ partyDeclAt ("SMITH (D)".toList) j) :=
  ⟨c8_state_party_parsing.2.1 ("DUNWOODY, GA 30360".toList)
    ⟨10, 'G', 'A', [' '], ("30360").toList, [], by decide, by decide, by decide,
      by decide, by decide, by decide, by decide⟩,
   c8_state_party_parsing.2.2.2 ("SMITH (D)".toList)
    ⟨6, 'D', [], by decide, by decide⟩⟩

section FoldLemmas

theorem aLookup_aUpdate_self {α : Type} (k : Str) (f : α → α) :
    ∀ gs : List (Str × α), aLookup k (aUpdate k f gs) = (aLookup k gs).map f := by
  intro gs
  induction gs with
  | nil => rfl
  | cons p rest ih =>
    obtain ⟨k2, v⟩ := p
    by_cases hk : k2 = k
    · rw [aUpdate, if_pos hk, aLookup, if_pos hk, aLookup, if_pos hk]
      rfl
    · rw [aUpdate, if_neg hk, aLookup, if_neg hk, aLookup, if_neg hk, ih]

theorem aLookup_aUpdate_ne {α : Type} {k k2 : Str} (hne : k2 ≠ k) (f : α → α) :
    ∀ gs : List (Str × α), aLookup k (aUpdate k2 f gs) = aLookup k gs := by
  intro gs
  induction gs with
  | nil => rfl
  | cons p rest ih =>
    obtain ⟨k3, v⟩ := p
    by_cases hk : k3 = k2
    · rw [aUpdate, if_pos hk, aLookup, aLookup]
      subst hk
      rw [if_neg hne, if_neg hne]
    · rw [aUpdate, if_neg hk, aLookup, aLookup, ih]

theorem aLookup_append {α : Type} (k : Str) :
    ∀ (gs l2 : List (Str × α)), aLookup k (gs ++ l2)
      = match aLookup k gs with
        | some v => some v
        | none => aLookup k l2 := by
  intro gs l2
  induction gs with
  | nil => rfl
  | cons p rest ih =>
    obtain ⟨k2, v⟩ := p
    by_cases hk : k2 = k
    · rw [List.cons_append, aLookup, if_pos hk, aLookup, if_pos hk]
    · rw [List.cons_append, aLookup, if_neg hk, ih, aLookup, if_neg hk]

end FoldLemmas

theorem aLookup_foldDonation (gs : List (Str × DonorGroup)) (s : Str)
    (d : Donation) (k : Str) :
    aLookup k (foldDonation gs s d) =
      if extract_donor_key d = k
      then some (addDonation d ((aLookup k gs).getD (newGroup s d)))
      else aLookup k gs := by
  by_cases hk : extract_donor_key d = k
  · rw [if_pos hk]
    subst hk
    cases hl : aLookup (extract_donor_key d) gs with
    | some g =>
      simp only [foldDonation, hl, Option.isSome_some, if_true]
      rw [aLookup_aUpdate_self, hl]
      rfl
    | none =>
      simp only [foldDonation, hl, Option.isSome_none, Bool.false_eq_true, if_false]
      rw [aLookup_aUpdate_self, aLookup_append, hl]
      simp [aLookup]
  · rw [if_neg hk]
    cases hl : aLookup (extract_donor_key d) gs with
    | some g =>
      simp only [foldDonation, hl, Option.isSome_some, if_true]
      rw [aLookup_aUpdate_ne hk]
    | none =>
      simp only [foldDonation, hl, Option.isSome_none, Bool.false_eq_true, if_false]
      rw [aLookup_aUpdate_ne hk, aLookup_append]
      cases hgk : aLookup k gs with
      | some g2 => rfl
      | none => simp [aLookup, hk]

theorem aLookup_foldList (k : Str) :
    ∀ (l : List (Str × Donation)) (gs : List (Str × DonorGroup)),
      aLookup k (l.foldl (fun gs p => foldDonation gs p.1 p.2) gs)
        = mergeOpt (aLookup k gs)
            (l.filter (fun p => decide (extract_donor_key p.2 = k))) := by
  intro l
  induction l with
  | nil =>
    intro gs
    rw [List.foldl_nil, List.filter_nil]
    cases aLookup k gs with
    | none => rfl
    | some g => rfl
  | cons p l ih =>
    intro gs
    obtain ⟨s, d⟩ := p
    rw [List.foldl_cons, List.filter_cons]
    rw [ih (foldDonation gs s d), aLookup_foldDonation]
    by_cases hk : extract_donor_key d = k
    · rw [if_pos hk, if_pos (by simpa using hk)]
      cases hl : aLookup k gs with
      | some g =>
        simp only [mergeOpt, hl, Option.getD_some]
        rfl
      | none =>
        simp only [mergeOpt, hl, Option.getD_none]
    · rw [if_neg hk, if_neg (by simpa using hk)]

theorem foldAll_lookup (l : List (Str × Donation)) (k : Str) :
    aLookup k (foldAllDonations l)
      = mergeOpt none (l.filter (fun p => decide (extract_donor_key p.2 = k))) := by
  unfold foldAllDonations
  rw [aLookup_foldList]
  rfl

theorem extendGroup_donor_info :
    ∀ (ds : List (Str × Donation)) (g : DonorGroup),
      (extendGroup g ds).donor_info = g.donor_info := by
  intro ds
  induction ds with
  | nil => intro g; rfl
  | cons p ds ih => intro g; exact ih (addDonation p.2 g)

theorem extendGroup_donations :
    ∀ (ds : List (Str × Donation)) (g : DonorGroup),
      (extendGroup g ds).donations = g.donations ++ ds.map Prod.snd := by
  intro ds
  induction ds with
  | nil => intro g; simp [extendGroup]
  | cons p ds ih =>
    intro g
    have h1 : extendGroup g (p :: ds) = extendGroup (addDonation p.2 g) ds := rfl
    rw [h1, ih]
    simp [addDonation]

theorem extendGroup_analysis :
    ∀ (ds : List (Str × Donation)) (g : DonorGroup),
      (extendGroup g ds).party_analysis
        = ds.foldl (fun a p => bumpAnalysis p.2 a) g.party_analysis := by
  intro ds
  induction ds with
  | nil => intro g; rfl
  | cons p ds ih =>
    intro g
    have h1 : extendGroup g (p :: ds) = extendGroup (addDonation p.2 g) ds := rfl
    rw [h1, ih]
    rfl

theorem bumpAnalysis_comm (d1 d2 : Donation) (a : PartyAnalysis) :
    bumpAnalysis d1 (bumpAnalysis d2 a) = bumpAnalysis d2 (bumpAnalysis d1 a) := by
  cases a
  unfold bumpAnalysis
  split_ifs <;> simp_all [PartyAnalysis.mk.injEq] <;> omega

theorem foldl_perm_of_comm {α β : Type} {f : β → α → β}
    (hf : ∀ b x y, f (f b x) y = f (f b y) x) :
    ∀ {l1 l2 : List α}, l1.Perm l2 → ∀ b, l1.foldl f b = l2.foldl f b := by
  intro l1 l2 h
  induction h with
  | nil => intro b; rfl
  | cons x h ih => intro b; rw [List.foldl_cons, List.foldl_cons, ih]
  | swap x y l =>
    intro b
    rw [List.foldl_cons, List.foldl_cons, List.foldl_cons, List.foldl_cons, hf]
  | trans h1 h2 ih1 ih2 => intro b; rw [ih1, ih2]

/-- C2 counterexample: the same multiset of records folded in two orders
(the two records share one DonorKey but differ in contributor case) produces
different mappings: `donor_info.name` comes from the first record folded and
the donations list keeps fold order, so the claimed full mapping equality
fails. -/
theorem c2_counterexample :
    ([([], exDonLower), ([], exDonUpper)] : List (Str × Donation)).Perm
        [([], exDonUpper), ([], exDonLower)]
    ∧ aLookup (extract_donor_key exDonLower)
        (foldAllDonations [([], exDonLower), ([], exDonUpper)])
      ≠ aLookup (extract_donor_key exDonLower)
        (foldAllDonations [([], exDonUpper), ([], exDonLower)]) :=
  ⟨List.Perm.swap ([], exDonUpper) ([], exDonLower) [], by decide⟩

/-- C2 (amended): folding the same multiset of tagged DonationRecords in any
order yields the same set of DonorKeys and, at every key, the same
`party_analysis` (counts, amounts, totals) and hence the same finalized
percentages and `party_preference`; the `donor_info` field (taken from the
first record folded) and the order of the donations list are the only
order-dependent parts, as the counterexample forces. -/
theorem c2_aggregation_order (l1 l2 : List (Str × Donation)) (h : l1.Perm l2)
    (k : Str) :
    (aLookup k (foldAllDonations l1)).map DonorGroup.party_analysis
      = (aLookup k (foldAllDonations l2)).map DonorGroup.party_analysis
    ∧ (aLookup k (foldAllDonations l1)).isSome
      = (aLookup k (foldAllDonations l2)).isSome
    ∧ (aLookup k (foldAllDonations l1)).map
        (fun g => finalizeAnalysis g.party_analysis)
      = (aLookup k (foldAllDonations l2)).map
        (fun g => finalizeAnalysis g.party_analysis) := by
  have hfp : (l1.filter (fun p => decide (extract_donor_key p.2 = k))).Perm
      (l2.filter (fun p => decide (extract_donor_key p.2 = k))) := h.filter _
  have hana : (aLookup k (foldAllDonations l1)).map DonorGroup.party_analysis
      = (aLookup k (foldAllDonations l2)).map DonorGroup.party_analysis := by
    rw [foldAll_lookup, foldAll_lookup]
    rcases hf1 : l1.filter (fun p => decide (extract_donor_key p.2 = k)) with
      _ | ⟨q, ds⟩
    · have h2 : l2.filter (fun p => decide (extract_donor_key p.2 = k)) = [] := by
        rw [hf1] at hfp
        exact List.Perm.eq_nil hfp.symm
      rw [hf1, h2]
    · rcases hf2 : l2.filter (fun p => decide (extract_donor_key p.2 = k)) with
        _ | ⟨q2, ds2⟩
      · exfalso
        rw [hf1, hf2] at hfp
        exact absurd (List.Perm.eq_nil hfp) (by simp)
      · rw [hf1, hf2] at hfp
        rw [hf1, hf2]
        obtain ⟨s, d⟩ := q
        obtain ⟨s2, d2⟩ := q2
        simp only [mergeOpt, Option.map_some']
        rw [extendGroup_analysis, extendGroup_analysis]
        congr 1
        have e1 : ds.foldl (fun a p => bumpAnalysis p.2 a)
            (addDonation d (newGroup s d)).party_analysis
            = ((s, d) :: ds).foldl (fun a p => bumpAnalysis p.2 a) zeroAnalysis := rfl
        have e2 : ds2.foldl (fun a p => bumpAnalysis p.2 a)
            (addDonation d2 (newGroup s2 d2)).party_analysis
            = ((s2, d2) :: ds2).foldl (fun a p => bumpAnalysis p.2 a) zeroAnalysis := rfl
        rw [e1, e2]
        exact foldl_perm_of_comm (fun b x y => bumpAnalysis_comm y.2 x.2 b)
          hfp zeroAnalysis
  refine ⟨hana, ?_, ?_⟩
  · have := congrArg Option.isSome hana
    simpa using this
  · have hcomp : ∀ o : Option DonorGroup,
        o.map (fun g => finalizeAnalysis g.party_analysis)
          = (o.map DonorGroup.party_analysis).map finalizeAnalysis := by
      intro o
      cases o <;> rfl
    rw [hcomp, hcomp, hana]

theorem c2_witness :
    (aLookup (extract_donor_key exDonLower)
        (foldAllDonations [([], exDonLower), ([], exDonUpper)])).map
        DonorGroup.party_analysis
      = (aLookup (extract_donor_key exDonLower)
        (foldAllDonations [([], exDonUpper), ([], exDonLower)])).map
        DonorGroup.party_analysis
    ∧ (aLookup (extract_donor_key exDonLower)
        (foldAllDonations [([], exDonLower), ([], exDonUpper)])).isSome
      = (aLookup (extract_donor_key exDonLower)
        (foldAllDonations [([], exDonUpper), ([], exDonLower)])).isSome
    ∧ (aLookup (extract_donor_key exDonLower)
        (foldAllDonations [([], exDonLower), ([], exDonUpper)])).map
        (fun g => finalizeAnalysis g.party_analysis)
      = (aLookup (extract_donor_key exDonLower)
        (foldAllDonations [([], exDonUpper), ([], exDonLower)])).map
        (fun g => finalizeAnalysis g.party_analysis) :=
  c2_aggregation_order [([], exDonLower), ([], exDonUpper)]
    [([], exDonUpper), ([], exDonLower)]
    (List.Perm.swap ([], exDonUpper) ([], exDonLower) [])
    (extract_donor_key exDonLower)

theorem pyUpper_pyStrip_of_upper_eq {x y : Str} (h : pyUpper x = pyUpper y) :
    pyUpper (pyStrip x) = pyUpper (pyStrip y) := by
  rw [pyUpper_pyStrip, h, ← pyUpper_pyStrip]

theorem pyUpper_keyName_of_upper_eq {x y : Str} (h : pyUpper x = pyUpper y) :
    pyUpper (pyStrip (takeBeforeNL (pyStrip x)))
      = pyUpper (pyStrip (takeBeforeNL (pyStrip y))) := by
  rw [pyUpper_pyStrip, pyUpper_takeBeforeNL, pyUpper_pyStrip, h,
    ← pyUpper_pyStrip, ← pyUpper_takeBeforeNL, ← pyUpper_pyStrip]

theorem foldAll_lookup_mem (l : List (Str × Donation)) (k : Str)
    (hne : l.filter (fun p => decide (extract_donor_key p.2 = k)) ≠ []) :
    ∃ g, aLookup k (foldAllDonations l) = some g
      ∧ g.donations
          = (l.filter (fun p => decide (extract_donor_key p.2 = k))).map
              Prod.snd := by
  rw [foldAll_lookup]
  rcases hf : l.filter (fun p => decide (extract_donor_key p.2 = k)) with
    _ | ⟨⟨s, d⟩, ds⟩
  · exact absurd hf hne
  · rw [hf]
    refine ⟨_, rfl, ?_⟩
    rw [extendGroup_donations]
    simp [addDonation, newGroup]

/-- C3: the donor key is the upper-cased `{name}|{state}|{employer}|
{occupation}` string with `name` the trimmed text before the first newline of
the contributor field (stated for records whose text fields are already
whitespace-trimmed, as every extracted record's cells are); key equality is
case-insensitive; and two records with equal DonorKey always land in the
donations of the same donor profile, whichever queries produced them. -/
theorem c3_donor_key :
    (∀ d : Donation, pyStrip d.contributor = d.contributor →
      pyStrip d.contributor_state = d.contributor_state →
      pyStrip d.employer = d.employer →
      pyStrip d.occupation = d.occupation →
      extract_donor_key d = donorKeySpec d)
    ∧ (∀ d1 d2 : Donation,
      pyUpper d1.contributor = pyUpper d2.contributor →
      pyUpper d1.contributor_state = pyUpper d2.contributor_state →
      pyUpper d1.employer = pyUpper d2.employer →
      pyUpper d1.occupation = pyUpper d2.occupation →
      extract_donor_key d1 = extract_donor_key d2)
    ∧ (∀ (results : List QueryResult) (s1 s2 : Str) (r1 r2 : Donation),
      (s1, r1) ∈ collectDonations results →
      (s2, r2) ∈ collectDonations results →
      extract_donor_key r1 = extract_donor_key r2 →
      ∃ g, aLookup (extract_donor_key r1)
            (foldAllDonations (collectDonations results)) = some g
        ∧ r1 ∈ g.donations ∧ r2 ∈ g.donations) := by
  refine ⟨?_, ?_, ?_⟩
  · intro d h1 h2 h3 h4
    unfold extract_donor_key donorKeySpec
    rw [h1, h2, h3, h4]
  · intro d1 d2 hc hs he ho
    unfold extract_donor_key
    simp only [pyUpper_append]
    rw [pyUpper_keyName_of_upper_eq hc, pyUpper_pyStrip_of_upper_eq hs,
      pyUpper_pyStrip_of_upper_eq he, pyUpper_pyStrip_of_upper_eq ho]
  · intro results s1 s2 r1 r2 hm1 hm2 hkey
    have hmem1 : (s1, r1) ∈ (collectDonations results).filter
        (fun p => decide (extract_donor_key p.2 = extract_donor_key r1)) :=
      List.mem_filter.mpr ⟨hm1, by simp⟩
    have hmem2 : (s2, r2) ∈ (collectDonations results).filter
        (fun p => decide (extract_donor_key p.2 = extract_donor_key r1)) :=
      List.mem_filter.mpr ⟨hm2, by simp [hkey]⟩
    have hne : (collectDonations results).filter
        (fun p => decide (extract_donor_key p.2 = extract_donor_key r1)) ≠ [] := by
      intro h0
      rw [h0] at hmem1
      exact absurd hmem1 (List.not_mem_nil _)
    obtain ⟨g, hg, hdon⟩ :=
      foldAll_lookup_mem (collectDonations results) (extract_donor_key r1) hne
    refine ⟨g, hg, ?_, ?_⟩
    · rw [hdon]
      exact List.mem_map.mpr ⟨(s1, r1), hmem1, rfl⟩
    · rw [hdon]
      exact List.mem_map.mpr ⟨(s2, r2), hmem2, rfl⟩

theorem c3_witness :
    extract_donor_key exDonLower = donorKeySpec exDonLower :=
  c3_donor_key.1 exDonLower (by decide) (by decide) (by decide) (by decide)

theorem aLookup_map {α β : Type} (f : α → β) (k : Str) :
    ∀ l : List (Str × α),
      aLookup k (l.map (fun p => (p.1, f p.2))) = (aLookup k l).map f := by
  intro l
  induction l with
  | nil => rfl
  | cons p rest ih =>
    obtain ⟨k2, v⟩ := p
    by_cases hk : k2 = k
    · simp only [List.map_cons, aLookup, if_pos hk]
      rfl
    · simp only [List.map_cons, aLookup, if_neg hk]
      exact ih

/-- C1: for every donor profile produced by aggregation with at least one
folded donation, the `party_preference` label is assigned exactly by the
threshold rules on `count/total*100` percentages (strong at 80, lean on the
strict majority side, otherwise Mixed/Independent); in particular 9 of 10
donations tagged D give "Strong Democratic", 5 and 5 give
"Mixed/Independent", and 6 and 4 give "Lean Democratic". -/
theorem c1_party_preference :
    (∀ (results : List QueryResult) (k : Str) (g : DonorGroup),
      aLookup k (foldAllDonations (collectDonations results)) = some g →
      1 ≤ g.party_analysis.total_donations →
      aLookup k (group_donors_and_analyze_party results)
          = some (finalizeGroup g)
      ∧ (finalizeGroup g).party_analysis.party_preference =
          (if 80 ≤ (g.party_analysis.democratic_count : ℚ)
                / (g.party_analysis.total_donations : ℚ) * 100
           then strongDemocratic
           else if 80 ≤ (g.party_analysis.republican_count : ℚ)
                / (g.party_analysis.total_donations : ℚ) * 100
           then strongRepublican
           else if (g.party_analysis.republican_count : ℚ)
                  / (g.party_analysis.total_donations : ℚ) * 100
                < (g.party_analysis.democratic_count : ℚ)
                  / (g.party_analysis.total_donations : ℚ) * 100
           then leanDemocratic
           else if (g.party_analysis.democratic_count : ℚ)
                  / (g.party_analysis.total_donations : ℚ) * 100
                < (g.party_analysis.republican_count : ℚ)
                  / (g.party_analysis.total_donations : ℚ) * 100
           then leanRepublican
           else mixedIndependent))
    ∧ (finalizeAnalysis ⟨9, 1, 0, 0, 0, 0, 10, 0⟩).party_preference
        = strongDemocratic
    ∧ (finalizeAnalysis ⟨5, 5, 0, 0, 0, 0, 10, 0⟩).party_preference
        = mixedIndependent
    ∧ (finalizeAnalysis ⟨6, 4, 0, 0, 0, 0, 10, 0⟩).party_preference
        = leanDemocratic := by
  refine ⟨?_, ?_, ?_, ?_⟩
  · intro results k g hg htot
    constructor
    · unfold group_donors_and_analyze_party
      rw [aLookup_map finalizeGroup k, hg]
      rfl
    · show (finalizeAnalysis g.party_analysis).party_preference = _
      unfold finalizeAnalysis
      rw [if_pos (show 0 < g.party_analysis.total_donations from htot)]
  · unfold finalizeAnalysis
    norm_num
  · unfold finalizeAnalysis
    norm_num
  · unfold finalizeAnalysis
    norm_num

theorem c1_witness :
    aLookup (extract_donor_key exDonD) (group_donors_and_analyze_party [exResultD])
        = some (finalizeGroup exGroupD)
    ∧ (finalizeGroup exGroupD).party_analysis.party_preference =
        (if 80 ≤ (exGroupD.party_analysis.democratic_count : ℚ)
              / (exGroupD.party_analysis.total_donations : ℚ) * 100
         then strongDemocratic
         else if 80 ≤ (exGroupD.party_analysis.republican_count : ℚ)
              / (exGroupD.party_analysis.total_donations : ℚ) * 100
         then strongRepublican
         else if (exGroupD.party_analysis.republican_count : ℚ)
                / (exGroupD.party_analysis.total_donations : ℚ) * 100
              < (exGroupD.party_analysis.democratic_count : ℚ)
                / (exGroupD.party_analysis.total_donations : ℚ) * 100
         then leanDemocratic
         else if (exGroupD.party_analysis.democratic_count : ℚ)
                / (exGroupD.party_analysis.total_donations : ℚ) * 100
              < (exGroupD.party_analysis.republican_count : ℚ)
                / (exGroupD.party_analysis.total_donations : ℚ) * 100
         then leanRepublican
         else mixedIndependent) :=
  c1_party_preference.1 [exResultD] (extract_donor_key exDonD) exGroupD
    (by decide) (by decide)

section OccurLemmas

theorem isPrefixOf_nil_false {needle : Str} (h : needle ≠ []) :
    needle.isPrefixOf [] = false := by
  cases needle with
  | nil => exact absurd rfl h
  | cons c cs => rfl

theorem firstOccurIdx_none_iff (needle : Str) :
    ∀ hay : Str, firstOccurIdx needle hay = none
      ↔ ∀ i, needle.isPrefixOf (hay.drop i) = false := by
  intro hay
  induction hay with
  | nil =>
    unfold firstOccurIdx
    cases hp : needle.isPrefixOf [] with
    | true =>
      rw [if_pos rfl]
      constructor
      · intro h; cases h
      · intro h
        have := h 0
        rw [List.drop_nil] at this
        rw [hp] at this
        cases this
    | false =>
      rw [if_neg (by simp)]
      constructor
      · intro _ i
        rw [List.drop_nil]
        exact hp
      · intro _; rfl
  | cons c rest ih =>
    unfold firstOccurIdx
    cases hp : needle.isPrefixOf (c :: rest) with
    | true =>
      rw [if_pos rfl]
      constructor
      · intro h; cases h
      · intro h
        have := h 0
        rw [List.drop_zero] at this
        rw [hp] at this
        cases this
    | false =>
      rw [if_neg (by simp)]
      constructor
      · intro h i
        have hnone : firstOccurIdx needle rest = none := by
          cases hf : firstOccurIdx needle rest with
          | none => rfl
          | some j => rw [hf] at h; cases h
        cases i with
        | zero => simpa using hp
        | succ j => simpa using (ih.mp hnone) j
      · intro h
        have hnone : firstOccurIdx needle rest = none :=
          ih.mpr (fun i => by simpa using h (i + 1))
        rw [hnone]
        rfl

theorem firstOccurIdx_eq_none {needle hay : Str} (hne : needle ≠ [])
    (h : ¬ occursIn needle hay) : firstOccurIdx needle hay = none := by
  rw [firstOccurIdx_none_iff]
  intro i
  by_cases hi : i < hay.length + 1
  · cases hp : needle.isPrefixOf (hay.drop i) with
    | false => rfl
    | true => exact absurd ⟨i, hi, hp⟩ h
  · rw [List.drop_eq_nil_of_le (by omega)]
    exact isPrefixOf_nil_false hne

theorem lastOccurIdx_eq_none {needle hay : Str}
    (h : ¬ occursIn needle hay) : lastOccurIdx needle hay = none := by
  unfold lastOccurIdx
  have hfil : (List.range (hay.length + 1)).filter
      (fun i => needle.isPrefixOf (hay.drop i)) = [] := by
    rw [List.filter_eq_nil_iff]
    intro i hi
    intro hp
    exact h ⟨i, List.mem_range.mp hi, hp⟩
  rw [hfil]
  rfl

end OccurLemmas

/-- C4: the §4.1 splitter returns a (namePart, addressPart) pair; for
QueryName "KAUR, AASEES" and the run-together blob it recovers the boundary
after the first name, and for QueryName "JOHN SMITH" and a blob containing
neither name token it falls back to the whole blob with an empty address. -/
theorem c4_splitter :
    splitBlob ("KAUR, AASEESDUNWOODY, GA 30360".toList) ("KAUR, AASEES".toList)
        = ("KAUR, AASEES".toList, "DUNWOODY, GA 30360".toList)
    ∧ (∀ blob : Str,
        ¬ occursIn ("JOHN".toList) (pyUpper blob) →
        ¬ occursIn ("SMITH".toList) (pyUpper blob) →
        splitBlob blob ("JOHN SMITH".toList) = (blob, [])) := by
  constructor
  · decide
  · intro blob h1 h2
    have hq : splitQueryName ("JOHN SMITH".toList)
        = ("JOHN".toList, "SMITH".toList) := by decide
    have hfu : pyUpper ("JOHN".toList) = "JOHN".toList := by decide
    have hlu : pyUpper ("SMITH".toList) = "SMITH".toList := by decide
    have hf : firstOccurIdx ("JOHN".toList) (pyUpper blob) = none :=
      firstOccurIdx_eq_none (by decide) h1
    have hl : lastOccurIdx ("SMITH".toList) (pyUpper blob) = none :=
      lastOccurIdx_eq_none h2
    simp only [splitBlob, hq, hfu, hlu, hf, hl]
    simp

theorem c4_witness :
    splitBlob ("XYZ".toList) ("JOHN SMITH".toList) = ("XYZ".toList, []) :=
  c4_splitter.2 ("XYZ".toList) (by decide) (by decide)

section GrouperLemmas

theorem simAtLeast80_iff (a b : Str) :
    simAtLeast80 a b = true ↔ (4:ℚ)/5 ≤ simRatio a b := by
  simp only [simAtLeast80, simRatio]
  by_cases ht : (normAddr a).length + (normAddr b).length = 0
  · rw [if_pos ht, decide_eq_true_eq]
    constructor
    · rintro ⟨hne, -⟩
      exact absurd ht hne
    · intro hq
      exfalso
      norm_num at hq
  · rw [if_neg ht, decide_eq_true_eq]
    have htq : (0:ℚ) < (((normAddr a).length + (normAddr b).length : Nat) : ℚ) := by
      exact_mod_cast Nat.pos_of_ne_zero ht
    rw [div_le_div_iff₀ (by norm_num) htq]
    constructor
    · rintro ⟨-, hle⟩
      have hle2 : ((4 * ((normAddr a).length + (normAddr b).length) : Nat) : ℚ)
          ≤ ((10 * matchTotal (normAddr a) (normAddr b) : Nat) : ℚ) := by
        exact_mod_cast hle
      push_cast at hle2 ⊢
      linarith
    · intro hle
      refine ⟨ht, ?_⟩
      have hle2 : ((4 * ((normAddr a).length + (normAddr b).length) : Nat) : ℚ)
          ≤ ((10 * matchTotal (normAddr a) (normAddr b) : Nat) : ℚ) := by
        push_cast at hle ⊢
        linarith
      exact_mod_cast hle2

theorem groupRecords_cons (r : SpecRecord) (rest : List SpecRecord) :
    groupRecords (r :: rest)
      = { representative_name := r.contributor_name,
          representative_address := r.contributor_address,
          member_records := r :: rest.filter
            (fun x => simAtLeast80 r.contributor_address x.contributor_address) }
        :: groupRecords (rest.filter
            (fun x => ! simAtLeast80 r.contributor_address x.contributor_address)) := by
  rw [groupRecords]

theorem groupRecords_partition :
    ∀ (n : Nat) (l : List SpecRecord), l.length ≤ n →
      ((groupRecords l).flatMap VariantGroup.member_records).Perm l
      ∧ (groupRecords l).length ≤ l.length := by
  intro n
  induction n with
  | zero =>
    intro l hl
    have hnil : l = [] := List.eq_nil_of_length_eq_zero (by omega)
    subst hnil
    have h0 : groupRecords ([] : List SpecRecord) = [] := by rw [groupRecords]
    rw [h0]
    exact ⟨List.Perm.nil, by simp⟩
  | succ n ih =>
    intro l hl
    cases l with
    | nil =>
      have h0 : groupRecords ([] : List SpecRecord) = [] := by rw [groupRecords]
      rw [h0]
      exact ⟨List.Perm.nil, by simp⟩
    | cons r rest =>
      rw [groupRecords_cons]
      have hlen : (rest.filter
          (fun x => ! simAtLeast80 r.contributor_address x.contributor_address)).length
            ≤ n := by
        have hfle := List.length_filter_le
          (fun x => ! simAtLeast80 r.contributor_address x.contributor_address) rest
        have h2 : rest.length ≤ n := by
          rw [List.length_cons] at hl
          omega
        omega
      obtain ⟨ihp, ihc⟩ := ih _ hlen
      constructor
      · rw [List.flatMap_cons, List.cons_append]
        apply List.Perm.cons
        exact (List.Perm.append_left _ ihp).trans (List.filter_append_perm _ _)
      · have hfle := List.length_filter_le
          (fun x => ! simAtLeast80 r.contributor_address x.contributor_address) rest
        simp only [List.length_cons]
        omega

end GrouperLemmas

/-- C5: the §4.3 grouping partitions its input (the concatenation of all
member records is a permutation of the records), produces at most as many
groups as records, and when two records have address similarity at least
0.80 with the first one seeded first, both land in that first group. -/
theorem c5_variant_grouping :
    (∀ l : List SpecRecord,
      ((groupRecords l).flatMap VariantGroup.member_records).Perm l
      ∧ (groupRecords l).length ≤ l.length)
    ∧ (∀ (r : SpecRecord) (rest : List SpecRecord) (x : SpecRecord),
        x ∈ rest →
        (4:ℚ)/5 ≤ simRatio r.contributor_address x.contributor_address →
        ∃ g gs, groupRecords (r :: rest) = g :: gs
          ∧ r ∈ g.member_records ∧ x ∈ g.member_records) := by
  constructor
  · intro l
    exact groupRecords_partition l.length l (le_refl _)
  · intro r rest x hx hsim
    refine ⟨_, _, groupRecords_cons r rest, List.mem_cons_self _ _, ?_⟩
    apply List.mem_cons_of_mem
    exact List.mem_filter.mpr ⟨hx, (simAtLeast80_iff _ _).mpr hsim⟩

set_option maxRecDepth 8000 in
theorem c5_witness :
    ∃ g gs, groupRecords [exRecA, exRecB] = g :: gs
      ∧ exRecA ∈ g.member_records ∧ exRecB ∈ g.member_records :=
  c5_variant_grouping.2 exRecA [exRecB] exRecB (by decide)
    ((simAtLeast80_iff exRecA.contributor_address
      exRecB.contributor_address).mp (by decide))
